import Mathlib

/-!
Shallow embedding of the core of `gaps` (src/gaps/individual.py and
src/gaps/cli.py): the `Individual` data model, its fitness dispatch, the
grid-adjacency lookup, and the CLI parameter validation.

Python floats are modelled as rationals (`ℚ`). The pixel-level collaborators
that live outside `src/` (`ImageAnalysis.get_dissimilarity`,
`utils.assemble_image`, `compute_sem_consistency`) are opaque to the core and
are passed as explicit function parameters, matching the spec's description of
them as deterministic side-effect-free functions.
-/

namespace Gaps

/-- `FitnessType` enum from individual.py: Similarity = 1, Semantic = 2, Sum = 3. -/
inductive FitnessType where
  | Similarity
  | Semantic
  | Sum
deriving DecidableEq, Repr

/-- Integer value of each enum member, as declared in the Python `Enum`. -/
def FitnessType.value : FitnessType → Int
  | .Similarity => 1
  | .Semantic => 2
  | .Sum => 3

/-- `FitnessType(v)` / the membership test `v in FitnessType`: an integer code
is a fitness type exactly when it is the value of some member. -/
def FitnessType.ofValue (v : Int) : Option FitnessType :=
  if v = 1 then some .Similarity
  else if v = 2 then some .Semantic
  else if v = 3 then some .Sum
  else none

/-- One square tile: unique id, pixel block (modelled as an abstract token),
edge size. -/
structure Piece where
  id : Nat
  image : Nat
  size : Nat
deriving DecidableEq, Repr

/-- One candidate arrangement: `pieces` in row-major order over a
`rows` by `columns` grid, plus the fitness type fixed at construction. -/
structure Individual where
  pieces : List Piece
  rows : Nat
  columns : Nat
  fitness_type : FitnessType
deriving DecidableEq, Repr

/-- The dict comprehension
`{piece.id: index for index, piece in enumerate(self.pieces)}`, looked up at
`pid`. Built by inserting pairs in enumeration order, so a later index for a
repeated id overwrites an earlier one, exactly as a Python dict does; `i` is
the index of the head of `ps` in the full list. -/
def pieceMappingFrom (i : Nat) (ps : List Piece) (pid : Nat) : Option Nat :=
  match ps with
  | [] => none
  | p :: rest =>
    match pieceMappingFrom (i + 1) rest pid with
    | some j => some j
    | none => if p.id = pid then some i else none

/-- `self._piece_mapping[pid]`, as a partial lookup (`none` for a Python
`KeyError`). -/
def pieceMapping (pieces : List Piece) (pid : Nat) : Option Nat :=
  pieceMappingFrom 0 pieces pid

/-- `Individual.__init__`: the constructor copies the argument list
(`self.pieces = pieces[:]`) and, when `shuffle` is set, permutes the copy in
place via `np.random.shuffle`. The random permutation drawn is modelled by the
explicit argument `shuffled`; theorems constrain it to be a permutation of
`pieces`. -/
def Individual.init (pieces : List Piece) (rows columns : Nat)
    (shuffle : Bool) (shuffled : List Piece) (ft : FitnessType) : Individual :=
  { pieces := if shuffle then shuffled else pieces
    rows := rows
    columns := columns
    fitness_type := ft }

/-- `Individual.__init__` with the fitness-type argument as a raw integer
code: `if fitness_type not in FitnessType: raise ValueError(...)`. The
constructor performs no other validation. -/
def Individual.initE (pieces : List Piece) (rows columns : Nat)
    (shuffle : Bool) (shuffled : List Piece) (ftCode : Int) :
    Except String Individual :=
  match FitnessType.ofValue ftCode with
  | none => .error "Unknown fitness type"
  | some ft => .ok (Individual.init pieces rows columns shuffle shuffled ft)

/-- `self.__getitem__(key)`: the slice `pieces[key*columns : (key+1)*columns]`,
i.e. row `key` of the grid. -/
def Individual.row (ind : Individual) (key : Nat) : List Piece :=
  (ind.pieces.drop (key * ind.columns)).take ind.columns

/-- `self[i][j]`: piece at grid cell (i, j); a Python index error is modelled
by a default piece (every theorem keeps indices in range). -/
def Individual.cellD (ind : Individual) (i j : Nat) : Piece :=
  (ind.row i).getD j ⟨0, 0, 0⟩

/-- The two orientations used by `ImageAnalysis.get_dissimilarity`:
"LR" (left piece, right piece) and "TD" (top piece, down piece). -/
inductive Orientation where
  | LR
  | TD
deriving DecidableEq, Repr

/-- `Individual.FITNESS_FACTOR = 1000`. -/
def FITNESS_FACTOR : ℚ := 1000

/-- The accumulator of `Individual._similarity` just before the final
division: starts at `1 / FITNESS_FACTOR`, then adds the dissimilarity of each
horizontally adjacent pair `(self[i][j], self[i][j+1])` and each vertically
adjacent pair `(self[i][j], self[i+1][j])`. `diss` stands for the repository's
`ImageAnalysis.get_dissimilarity`, opaque to this module. -/
def Individual.fitnessValueAcc (diss : Nat × Nat → Orientation → ℚ)
    (ind : Individual) : ℚ :=
  let afterRows :=
    (List.range ind.rows).foldl (fun acc i =>
      (List.range (ind.columns - 1)).foldl (fun acc2 j =>
        acc2 + diss ((ind.cellD i j).id, (ind.cellD i (j + 1)).id) .LR) acc)
      (1 / FITNESS_FACTOR)
  (List.range (ind.rows - 1)).foldl (fun acc i =>
    (List.range ind.columns).foldl (fun acc2 j =>
      acc2 + diss ((ind.cellD i j).id, (ind.cellD (i + 1) j).id) .TD) acc)
    afterRows

/-- `Individual._similarity`: `FITNESS_FACTOR / fitness_value`. -/
def Individual.similarity (diss : Nat × Nat → Orientation → ℚ)
    (ind : Individual) : ℚ :=
  FITNESS_FACTOR / ind.fitnessValueAcc diss

/-- `Individual.to_image`: assembles the image from the pieces' pixel blocks
in grid order. `asm` stands for `utils.assemble_image`, which is outside the
embedded core: a pure function of the piece images and the grid shape. -/
def Individual.to_image (asm : List Nat → Nat → Nat → Nat)
    (ind : Individual) : Nat :=
  asm (ind.pieces.map Piece.image) ind.rows ind.columns

/-- `Individual._semantic_consistency`:
`compute_sem_consistency(self.to_image(), (self.rows, self.columns)) * 10`.
`sem` stands for the external scorer `compute_sem_consistency`, opaque and
deterministic per the spec. -/
def Individual.semantic (sem : Nat → Nat × Nat → ℚ)
    (asm : List Nat → Nat → Nat → Nat) (ind : Individual) : ℚ :=
  sem (ind.to_image asm) (ind.rows, ind.columns) * 10

/-- The value computed by the `fitness` property on a cache miss: dispatch on
`fitness_type`. The Python `else: raise NotImplementedError` branch is
unreachable on the closed enum. -/
def Individual.computeFitness (diss : Nat × Nat → Orientation → ℚ)
    (sem : Nat → Nat × Nat → ℚ) (asm : List Nat → Nat → Nat → Nat)
    (ind : Individual) : ℚ :=
  match ind.fitness_type with
  | .Similarity => ind.similarity diss
  | .Semantic => ind.semantic sem asm
  | .Sum => ind.similarity diss + ind.semantic sem asm

/-- Runtime state of one Individual's fitness cache: `self._fitness`, set to
`None` by the constructor. -/
structure IndState where
  ind : Individual
  cache : Option ℚ
deriving DecidableEq, Repr

/-- State right after `__init__`: `self._fitness = None`. -/
def IndState.start (ind : Individual) : IndState := ⟨ind, none⟩

/-- One read of the `fitness` property: on a hit, return the cached value and
leave the state unchanged; on a miss, run the computation, store it, return
it. The Bool records whether the underlying computation ran (for counting
evaluations). -/
def fitnessAccess (diss : Nat × Nat → Orientation → ℚ)
    (sem : Nat → Nat × Nat → ℚ) (asm : List Nat → Nat → Nat → Nat)
    (s : IndState) : ℚ × IndState × Bool :=
  match s.cache with
  | some v => (v, s, false)
  | none =>
    let v := s.ind.computeFitness diss sem asm
    (v, ⟨s.ind, some v⟩, true)

/-- State after `n` consecutive reads of the `fitness` property, together
with how many times the underlying computation ran. -/
def accessN (diss : Nat × Nat → Orientation → ℚ)
    (sem : Nat → Nat × Nat → ℚ) (asm : List Nat → Nat → Nat → Nat)
    (s : IndState) : Nat → IndState × Nat
  | 0 => (s, 0)
  | n + 1 =>
    let p := accessN diss sem asm s n
    let q := fitnessAccess diss sem asm p.1
    (q.2.1, p.2 + (if q.2.2 then 1 else 0))

/-- `Individual.piece_by_id`: `self.pieces[self._piece_mapping[identifier]]`,
with a Python `KeyError` modelled as `none`. -/
def Individual.piece_by_id (ind : Individual) (identifier : Nat) :
    Option Piece :=
  (pieceMapping ind.pieces identifier).map fun i => ind.pieces.getD i ⟨0, 0, 0⟩

/-- `Individual.edge(piece_id, orientation)`: looks up the piece's grid index
and returns the id of the neighbour on the given side, or `none` when the
piece sits on that boundary (or when no branch matches, as the Python falls
off the end returning `None`). A `KeyError` on an absent id is modelled as
`none`. -/
def Individual.edge (ind : Individual) (piece_id : Nat)
    (orientation : String) : Option Nat :=
  match pieceMapping ind.pieces piece_id with
  | none => none
  | some edge_index =>
    if orientation = "T" ∧ edge_index ≥ ind.columns then
      some (ind.pieces.getD (edge_index - ind.columns) ⟨0, 0, 0⟩).id
    else if orientation = "R" ∧ edge_index % ind.columns < ind.columns - 1 then
      some (ind.pieces.getD (edge_index + 1) ⟨0, 0, 0⟩).id
    else if orientation = "D" ∧ edge_index < (ind.rows - 1) * ind.columns then
      some (ind.pieces.getD (edge_index + ind.columns) ⟨0, 0, 0⟩).id
    else if orientation = "L" ∧ edge_index % ind.columns > 0 then
      some (ind.pieces.getD (edge_index - 1) ⟨0, 0, 0⟩).id
    else none

/-- `_validate_positive_integer` from cli.py: click callback that raises
`BadParameter` on a non-positive value and returns the value otherwise. -/
def validatePositiveInteger (value : Int) : Except String Int :=
  if value ≤ 0 then .error "Should be a positive integer."
  else .ok value

/-- The arguments the `run` command hands to the `GeneticAlgorithm`
constructor (the constructor itself is outside the embedded core). -/
structure GAConfig where
  population_size : Int
  generations : Int
  fitness_type : FitnessType
deriving DecidableEq, Repr

/-- The `run` command's parameter handling up to the construction of the
genetic algorithm: click runs `_validate_positive_integer` on `generations`
and on `population` while parsing, before the command body executes, and the
body evaluates `FitnessType(fitness_type)` (which raises `ValueError` on a
code that is not a member) while building the `GeneticAlgorithm` argument
list. Producing a `GAConfig` stands for reaching the construction of the
algorithm. -/
def runParameterPhase (generations population ftCode : Int) :
    Except String GAConfig :=
  match validatePositiveInteger generations with
  | .error e => .error e
  | .ok g =>
    match validatePositiveInteger population with
    | .error e => .error e
    | .ok p =>
      match FitnessType.ofValue ftCode with
      | none => .error "ValueError: not a valid FitnessType"
      | some ft => .ok ⟨p, g, ft⟩

/-- A store of Python list objects; a variable holding a list is an index
into the store. Used to state what `__init__` does to the caller's list. -/
abbrev Store := List (List Piece)

/-- The constructor's effect on the caller's list object: reading the list at
`callerRef`, `self.pieces = pieces[:]` allocates a fresh object holding a
copy, and `np.random.shuffle(self.pieces)` (permutation drawn: `shuf`)
mutates only the fresh object. Returns the store after the call and the
reference the new Individual holds. -/
def initStore (store : Store) (callerRef : Nat) (shuffle : Bool)
    (shuf : List Piece → List Piece) : Store × Nat :=
  let val := List.getD store callerRef []
  let selfRef := List.length store
  let store1 := List.append store [val]
  let store2 :=
    if shuffle then List.set store1 selfRef (shuf val) else store1
  (store2, selfRef)

/-! Helper lemmas. -/

/-- A left fold that only accumulates additions over `range n` is the starting
value plus the finite sum. -/
lemma foldl_add_range (f : Nat → ℚ) (c : ℚ) (n : Nat) :
    (List.range n).foldl (fun a i => a + f i) c
      = c + ∑ i in Finset.range n, f i := by
  induction n with
  | zero => simp
  | succ n ih =>
    rw [List.range_succ, List.foldl_append, ih, Finset.sum_range_succ]
    simp [add_assoc]

/-- Nested accumulating folds over `range n` and `range m` compute the double
finite sum. -/
lemma foldl_foldl_add_range (g : Nat → Nat → ℚ) (c : ℚ) (n m : Nat) :
    (List.range n).foldl
        (fun acc i =>
          (List.range m).foldl (fun acc2 j => acc2 + g i j) acc) c
      = c + ∑ i in Finset.range n, ∑ j in Finset.range m, g i j := by
  induction n with
  | zero => simp
  | succ n ih =>
    rw [List.range_succ, List.foldl_append, ih]
    simp only [List.foldl_cons, List.foldl_nil]
    rw [foldl_add_range, Finset.sum_range_succ]
    ring

/-- The spec-side total: summed pairwise edge dissimilarity over every
horizontally adjacent pair and every vertically adjacent pair of the grid. -/
def Individual.dissimilaritySum (diss : Nat × Nat → Orientation → ℚ)
    (ind : Individual) : ℚ :=
  (∑ i in Finset.range ind.rows, ∑ j in Finset.range (ind.columns - 1),
      diss ((ind.cellD i j).id, (ind.cellD i (j + 1)).id) Orientation.LR)
    + ∑ i in Finset.range (ind.rows - 1), ∑ j in Finset.range ind.columns,
        diss ((ind.cellD i j).id, (ind.cellD (i + 1) j).id) Orientation.TD

/-- The accumulator of `_similarity` is the small constant plus the total
adjacent dissimilarity. -/
lemma fitnessValueAcc_eq (diss : Nat × Nat → Orientation → ℚ)
    (ind : Individual) :
    ind.fitnessValueAcc diss
      = 1 / FITNESS_FACTOR + ind.dissimilaritySum diss := by
  unfold Individual.fitnessValueAcc Individual.dissimilaritySum
  rw [foldl_foldl_add_range, foldl_foldl_add_range]
  ring

/-- A sum of non-negative dissimilarities is non-negative. -/
lemma dissimilaritySum_nonneg (diss : Nat × Nat → Orientation → ℚ)
    (hnn : ∀ p o, 0 ≤ diss p o) (ind : Individual) :
    0 ≤ ind.dissimilaritySum diss := by
  unfold Individual.dissimilaritySum
  have h1 : (0:ℚ) ≤ ∑ i in Finset.range ind.rows,
      ∑ j in Finset.range (ind.columns - 1),
        diss ((ind.cellD i j).id, (ind.cellD i (j + 1)).id) Orientation.LR :=
    Finset.sum_nonneg fun i _ => Finset.sum_nonneg fun j _ => hnn _ _
  have h2 : (0:ℚ) ≤ ∑ i in Finset.range (ind.rows - 1),
      ∑ j in Finset.range ind.columns,
        diss ((ind.cellD i j).id, (ind.cellD (i + 1) j).id) Orientation.TD :=
    Finset.sum_nonneg fun i _ => Finset.sum_nonneg fun j _ => hnn _ _
  linarith

/-- On any individual, `computeFitness` under the Similarity type is the
reciprocal-with-constant of the total adjacent dissimilarity. -/
lemma computeFitness_similarity (diss : Nat × Nat → Orientation → ℚ)
    (sem : Nat → Nat × Nat → ℚ) (asm : List Nat → Nat → Nat → Nat)
    (ind : Individual) (h : ind.fitness_type = .Similarity) :
    ind.computeFitness diss sem asm
      = FITNESS_FACTOR / (ind.dissimilaritySum diss + 1 / FITNESS_FACTOR) := by
  simp only [Individual.computeFitness, h, Individual.similarity,
    fitnessValueAcc_eq]
  ring_nf

/-! Claim theorems. -/

/-- C1: for a Similarity individual, the fitness is the (FITNESS_FACTOR-scaled)
inverse of the summed pairwise edge dissimilarity over all horizontally and
vertically adjacent pairs, shifted by the small additive constant
`1 / FITNESS_FACTOR` that keeps the denominator positive when the sum is zero;
consequently an arrangement with strictly lower total adjacent dissimilarity
has strictly higher Similarity fitness. -/
theorem similarity_fitness_inverse_antitone
    (diss : Nat × Nat → Orientation → ℚ) (sem : Nat → Nat × Nat → ℚ)
    (asm : List Nat → Nat → Nat → Nat)
    (hnn : ∀ p o, 0 ≤ diss p o) (a b : Individual)
    (ha : a.fitness_type = .Similarity) (hb : b.fitness_type = .Similarity) :
    a.computeFitness diss sem asm
        = FITNESS_FACTOR / (a.dissimilaritySum diss + 1 / FITNESS_FACTOR) ∧
      (a.dissimilaritySum diss < b.dissimilaritySum diss →
        b.computeFitness diss sem asm < a.computeFitness diss sem asm) := by
  refine ⟨computeFitness_similarity diss sem asm a ha, fun hlt => ?_⟩
  rw [computeFitness_similarity diss sem asm a ha,
    computeFitness_similarity diss sem asm b hb]
  have h0a : 0 ≤ a.dissimilaritySum diss := dissimilaritySum_nonneg diss hnn a
  have hEps : (0:ℚ) < 1 / FITNESS_FACTOR := by norm_num [FITNESS_FACTOR]
  have hF : (0:ℚ) < FITNESS_FACTOR := by norm_num [FITNESS_FACTOR]
  exact div_lt_div_of_pos_left hF (by linarith) (by linarith)

/-- Concrete instances used by witnesses: a dissimilarity measure, a semantic
scorer and an assembler, plus tiny individuals. -/
def dissNat : Nat × Nat → Orientation → ℚ := fun p _ => (p.1 : ℚ)

def semZero : Nat → Nat × Nat → ℚ := fun _ _ => 0

def asmZero : List Nat → Nat → Nat → Nat := fun _ _ _ => 0

def pieceA : Piece := ⟨0, 0, 0⟩

def pieceB : Piece := ⟨1, 1, 0⟩

def pieceC : Piece := ⟨2, 2, 0⟩

def indAB : Individual := ⟨[pieceA, pieceB], 1, 2, .Similarity⟩

def indBA : Individual := ⟨[pieceB, pieceA], 1, 2, .Similarity⟩

/-- Witness for C1 at concrete inputs. -/
theorem similarity_fitness_inverse_antitone_witness :
    indAB.computeFitness dissNat semZero asmZero
        = FITNESS_FACTOR / (indAB.dissimilaritySum dissNat + 1 / FITNESS_FACTOR) ∧
      (indAB.dissimilaritySum dissNat < indBA.dissimilaritySum dissNat →
        indBA.computeFitness dissNat semZero asmZero
          < indAB.computeFitness dissNat semZero asmZero) :=
  similarity_fitness_inverse_antitone dissNat semZero asmZero
    (fun p _ => Nat.cast_nonneg p.1) indAB indBA rfl rfl

/-- C2: whatever the shuffle flag, construction yields a pieces list that is a
permutation of the input: every piece id keeps its multiplicity, so when each
id occurs exactly once in the input it occurs exactly once in the Individual. -/
theorem init_pieces_perm_of_input (pieces shuffled : List Piece)
    (rows columns : Nat) (shuffle : Bool) (ft : FitnessType)
    (hshuf : shuffled.Perm pieces) :
    (Individual.init pieces rows columns shuffle shuffled ft).pieces.Perm
        pieces ∧
      (∀ pid : Nat,
        ((Individual.init pieces rows columns shuffle shuffled
            ft).pieces.map Piece.id).count pid
          = ((pieces.map Piece.id).count pid)) ∧
      ((pieces.map Piece.id).Nodup →
        ((Individual.init pieces rows columns shuffle shuffled
            ft).pieces.map Piece.id).Nodup) := by
  have hp : (Individual.init pieces rows columns shuffle shuffled
      ft).pieces.Perm pieces := by
    cases shuffle
    · simp [Individual.init]
    · simpa [Individual.init] using hshuf
  have hmap := hp.map Piece.id
  exact ⟨hp, fun pid => hmap.count_eq pid, fun hnd => hmap.nodup_iff.mpr hnd⟩

/-- Witness for C2 at concrete inputs: a two-piece list and its swap. -/
theorem init_pieces_perm_of_input_witness :
    (Individual.init [pieceA, pieceB] 1 2 true [pieceB, pieceA]
        FitnessType.Similarity).pieces.Perm [pieceA, pieceB] ∧
      (∀ pid : Nat,
        ((Individual.init [pieceA, pieceB] 1 2 true [pieceB, pieceA]
            FitnessType.Similarity).pieces.map Piece.id).count pid
          = (([pieceA, pieceB].map Piece.id).count pid)) ∧
      (([pieceA, pieceB].map Piece.id).Nodup →
        ((Individual.init [pieceA, pieceB] 1 2 true [pieceB, pieceA]
            FitnessType.Similarity).pieces.map Piece.id).Nodup) :=
  init_pieces_perm_of_input [pieceA, pieceB] [pieceB, pieceA] 1 2 true
    FitnessType.Similarity (List.Perm.swap pieceA pieceB [])

/-- A lookup of an id that occurs nowhere in the list yields `none`. -/
lemma pieceMappingFrom_eq_none (l : List Piece) (i pid : Nat)
    (h : pid ∉ l.map Piece.id) : pieceMappingFrom i l pid = none := by
  induction l generalizing i with
  | nil => rfl
  | cons p rest ih =>
    simp only [List.map_cons, List.mem_cons, not_or] at h
    rw [pieceMappingFrom, ih (i + 1) h.2]
    have hne : ¬p.id = pid := fun hq => h.1 hq.symm
    simp [hne]

/-- With pairwise-distinct ids, the dict built by the constructor maps the id
of the piece at offset `k` back to its absolute index `i + k`. -/
lemma pieceMappingFrom_get (l : List Piece)
    (hnd : (l.map Piece.id).Nodup) (i k : Nat) (hk : k < l.length) :
    pieceMappingFrom i l ((l.get ⟨k, hk⟩).id) = some (i + k) := by
  induction l generalizing i k with
  | nil => exact absurd hk (Nat.not_lt_zero k)
  | cons p rest ih =>
    rw [List.map_cons, List.nodup_cons] at hnd
    cases k with
    | zero =>
      have hnone : pieceMappingFrom (i + 1) rest p.id = none :=
        pieceMappingFrom_eq_none rest (i + 1) p.id hnd.1
      simp [pieceMappingFrom, hnone]
    | succ k2 =>
      have hk2 : k2 < rest.length := Nat.lt_of_succ_lt_succ hk
      have hrec := ih hnd.2 (i + 1) k2 hk2
      rw [pieceMappingFrom]
      simp only [List.get_cons_succ] at hrec ⊢
      rw [hrec]
      exact congrArg some (by omega)

/-- With pairwise-distinct ids, `_piece_mapping` sends the id of the piece at
index `k` to `k`. -/
lemma pieceMapping_get (l : List Piece) (hnd : (l.map Piece.id).Nodup)
    (k : Nat) (hk : k < l.length) :
    pieceMapping l ((l.get ⟨k, hk⟩).id) = some k := by
  simpa using pieceMappingFrom_get l hnd 0 k hk

/-- C9: `piece_by_id` applied to the id of the piece at index `k` returns
that same piece: the id-to-index mapping built at construction is a left
inverse of positional indexing. -/
theorem piece_by_id_left_inverse (ind : Individual)
    (hnd : (ind.pieces.map Piece.id).Nodup) (k : Nat)
    (hk : k < ind.pieces.length) :
    ind.piece_by_id ((ind.pieces.get ⟨k, hk⟩).id)
      = some (ind.pieces.get ⟨k, hk⟩) := by
  unfold Individual.piece_by_id
  rw [pieceMapping_get ind.pieces hnd k hk]
  simp [List.getElem?_eq_getElem hk]

/-- Witness for C9 at a concrete individual. -/
theorem piece_by_id_left_inverse_witness :
    indAB.piece_by_id ((indAB.pieces.get ⟨1, by decide⟩).id)
      = some (indAB.pieces.get ⟨1, by decide⟩) :=
  piece_by_id_left_inverse indAB (by decide) 1 (by decide)

/-- C3: for a well-formed individual (distinct ids, `rows * columns` pieces)
and the piece at row-major index `k`, the edge lookup returns the id of the
piece at index `k - columns` (top), `k + 1` (right), `k + columns` (bottom)
and `k - 1` (left), and returns `none` exactly when the piece is in the first
row, last column, last row, first column respectively. -/
theorem edge_neighbor_spec (ind : Individual)
    (hnd : (ind.pieces.map Piece.id).Nodup)
    (hlen : ind.pieces.length = ind.rows * ind.columns)
    (k : Nat) (hk : k < ind.pieces.length) :
    (ind.edge ((ind.pieces.get ⟨k, hk⟩).id) "T"
        = if k / ind.columns = 0 then none
          else some (ind.pieces.getD (k - ind.columns) ⟨0, 0, 0⟩).id) ∧
      (ind.edge ((ind.pieces.get ⟨k, hk⟩).id) "R"
        = if k % ind.columns = ind.columns - 1 then none
          else some (ind.pieces.getD (k + 1) ⟨0, 0, 0⟩).id) ∧
      (ind.edge ((ind.pieces.get ⟨k, hk⟩).id) "D"
        = if k / ind.columns = ind.rows - 1 then none
          else some (ind.pieces.getD (k + ind.columns) ⟨0, 0, 0⟩).id) ∧
      (ind.edge ((ind.pieces.get ⟨k, hk⟩).id) "L"
        = if k % ind.columns = 0 then none
          else some (ind.pieces.getD (k - 1) ⟨0, 0, 0⟩).id) := by
  have hc : 0 < ind.columns := by
    rcases Nat.eq_zero_or_pos ind.columns with h | h
    · rw [h, Nat.mul_zero] at hlen; omega
    · exact h
  have hmap := pieceMapping_get ind.pieces hnd k hk
  have hdiv_lt : k / ind.columns < ind.rows := by
    rw [Nat.div_lt_iff_lt_mul hc]; omega
  have hmod_lt : k % ind.columns < ind.columns := Nat.mod_lt k hc
  have hzero : k / ind.columns = 0 ↔ k < ind.columns := Nat.div_eq_zero_iff hc
  have hlastrow : k < (ind.rows - 1) * ind.columns
      ↔ k / ind.columns < ind.rows - 1 := (Nat.div_lt_iff_lt_mul hc).symm
  refine ⟨?_, ?_, ?_, ?_⟩
  · simp only [Individual.edge, hmap]
    have hT : (k / ind.columns = 0) ↔ ¬ ind.columns ≤ k := by
      rw [hzero]; omega
    simp only [hT]
    split_ifs <;> first | rfl | simp_all
  · simp only [Individual.edge, hmap]
    have hR : (k % ind.columns = ind.columns - 1)
        ↔ ¬ k % ind.columns < ind.columns - 1 := by omega
    simp only [hR]
    split_ifs <;> first | rfl | simp_all
  · simp only [Individual.edge, hmap]
    have hD : (k / ind.columns = ind.rows - 1)
        ↔ ¬ k < (ind.rows - 1) * ind.columns := by
      rw [hlastrow]
      constructor
      · intro h; omega
      · intro h; omega
    simp only [hD]
    split_ifs <;> first | rfl | simp_all
  · simp only [Individual.edge, hmap]
    have hL : (k % ind.columns = 0) ↔ ¬ k % ind.columns > 0 := by omega
    simp only [hL]
    split_ifs <;> first | rfl | simp_all

/-- Witness for C3: the middle piece of a concrete 2 by 2 grid. -/
def indGrid : Individual :=
  ⟨[pieceA, pieceB, pieceC, ⟨3, 3, 0⟩], 2, 2, .Similarity⟩

/-- Witness for C3 at index 1 of the concrete 2 by 2 individual. -/
theorem edge_neighbor_spec_witness :
    (indGrid.edge ((indGrid.pieces.get ⟨1, by decide⟩).id) "T"
        = if 1 / indGrid.columns = 0 then none
          else some (indGrid.pieces.getD (1 - indGrid.columns) ⟨0, 0, 0⟩).id) ∧
      (indGrid.edge ((indGrid.pieces.get ⟨1, by decide⟩).id) "R"
        = if 1 % indGrid.columns = indGrid.columns - 1 then none
          else some (indGrid.pieces.getD (1 + 1) ⟨0, 0, 0⟩).id) ∧
      (indGrid.edge ((indGrid.pieces.get ⟨1, by decide⟩).id) "D"
        = if 1 / indGrid.columns = indGrid.rows - 1 then none
          else some (indGrid.pieces.getD (1 + indGrid.columns) ⟨0, 0, 0⟩).id) ∧
      (indGrid.edge ((indGrid.pieces.get ⟨1, by decide⟩).id) "L"
        = if 1 % indGrid.columns = 0 then none
          else some (indGrid.pieces.getD (1 - 1) ⟨0, 0, 0⟩).id) :=
  edge_neighbor_spec indGrid (by decide) (by decide) 1 (by decide)

/-- C4: the fitness of a Sum individual is exactly the fitness the same
arrangement gets under Similarity plus the fitness it gets under Semantic. -/
theorem sum_fitness_is_similarity_plus_semantic
    (diss : Nat × Nat → Orientation → ℚ) (sem : Nat → Nat × Nat → ℚ)
    (asm : List Nat → Nat → Nat → Nat) (ind : Individual)
    (h : ind.fitness_type = .Sum) :
    ind.computeFitness diss sem asm
      = ((⟨ind.pieces, ind.rows, ind.columns, .Similarity⟩ :
            Individual).computeFitness diss sem asm)
        + ((⟨ind.pieces, ind.rows, ind.columns, .Semantic⟩ :
            Individual).computeFitness diss sem asm) := by
  cases ind with
  | mk p r c ft =>
    simp only at h
    subst h
    rfl

/-- Witness for C4 at a concrete Sum individual. -/
theorem sum_fitness_is_similarity_plus_semantic_witness :
    (⟨[pieceA, pieceB], 1, 2, .Sum⟩ : Individual).computeFitness dissNat
        semZero asmZero
      = ((⟨[pieceA, pieceB], 1, 2, .Similarity⟩ :
            Individual).computeFitness dissNat semZero asmZero)
        + ((⟨[pieceA, pieceB], 1, 2, .Semantic⟩ :
            Individual).computeFitness dissNat semZero asmZero) :=
  sum_fitness_is_similarity_plus_semantic dissNat semZero asmZero
    ⟨[pieceA, pieceB], 1, 2, .Sum⟩ rfl

/-- After `n + 1` consecutive reads of `fitness` starting from a fresh
Individual, the cache holds the computed value and the computation ran exactly
once. -/
lemma accessN_succ_spec (diss : Nat × Nat → Orientation → ℚ)
    (sem : Nat → Nat × Nat → ℚ) (asm : List Nat → Nat → Nat → Nat)
    (ind : Individual) (n : Nat) :
    accessN diss sem asm (IndState.start ind) (n + 1)
      = (⟨ind, some (ind.computeFitness diss sem asm)⟩, 1) := by
  induction n with
  | zero => rfl
  | succ n ih =>
    show accessN diss sem asm (IndState.start ind) (n + 1 + 1) = _
    rw [accessN, ih]
    rfl

/-- C5: fitness is computed lazily and cached. Starting from a freshly
constructed Individual (`self._fitness = None`), after any positive number of
reads of the `fitness` property the underlying computation has run exactly
once, and every read (the first and all later ones) returns the same scalar,
the value of `computeFitness` for the arrangement. -/
theorem fitness_lazy_cached (diss : Nat × Nat → Orientation → ℚ)
    (sem : Nat → Nat × Nat → ℚ) (asm : List Nat → Nat → Nat → Nat)
    (ind : Individual) (n : Nat) (hn : 1 ≤ n) :
    (accessN diss sem asm (IndState.start ind) n).2 = 1 ∧
      (∀ m : Nat, m < n →
        (fitnessAccess diss sem asm
            (accessN diss sem asm (IndState.start ind) m).1).1
          = ind.computeFitness diss sem asm) := by
  obtain ⟨n, rfl⟩ : ∃ k, n = k + 1 := ⟨n - 1, by omega⟩
  refine ⟨by rw [accessN_succ_spec], fun m hm => ?_⟩
  cases m with
  | zero => rfl
  | succ m => rw [accessN_succ_spec]; rfl

/-- Witness for C5: three reads on a concrete Individual. -/
theorem fitness_lazy_cached_witness :
    (accessN dissNat semZero asmZero (IndState.start indAB) 3).2 = 1 ∧
      (∀ m : Nat, m < 3 →
        (fitnessAccess dissNat semZero asmZero
            (accessN dissNat semZero asmZero (IndState.start indAB) m).1).1
          = indAB.computeFitness dissNat semZero asmZero) :=
  fitness_lazy_cached dissNat semZero asmZero indAB 3 (by omega)

/-- C8: the fitness of a Semantic individual is the external scorer applied to
the image reassembled from the current arrangement and the grid shape, scaled
by the fixed multiplier 10. -/
theorem semantic_fitness_scaled_score (diss : Nat × Nat → Orientation → ℚ)
    (sem : Nat → Nat × Nat → ℚ) (asm : List Nat → Nat → Nat → Nat)
    (ind : Individual) (h : ind.fitness_type = .Semantic) :
    ind.computeFitness diss sem asm
      = sem (ind.to_image asm) (ind.rows, ind.columns) * 10 := by
  simp only [Individual.computeFitness, h, Individual.semantic]

/-- Witness for C8 at a concrete Semantic individual. -/
theorem semantic_fitness_scaled_score_witness :
    (⟨[pieceA, pieceB], 1, 2, .Semantic⟩ : Individual).computeFitness dissNat
        semZero asmZero
      = semZero ((⟨[pieceA, pieceB], 1, 2, .Semantic⟩ :
            Individual).to_image asmZero) (1, 2) * 10 :=
  semantic_fitness_scaled_score dissNat semZero asmZero
    ⟨[pieceA, pieceB], 1, 2, .Semantic⟩ rfl

/-- C6: configuration validation fails fast, with the two assertions
independent of each other. Whenever the generation count or the population
size is non-positive — whatever the fitness-type code — the `run` command's
parameter phase stops with the `BadParameter` message, so no `GAConfig` (the
genetic algorithm's argument record) is ever produced; and whenever the
fitness-type code is not the value of Similarity, Semantic or Sum — whatever
the counts — constructing an Individual with it errors at construction. -/
theorem config_validation_fails_fast (g p code : Int)
    (pieces shuffled : List Piece) (r c : Nat) (sh : Bool) :
    ((g ≤ 0 ∨ p ≤ 0) →
        runParameterPhase g p code = .error "Should be a positive integer." ∧
        ∀ cfg : GAConfig, runParameterPhase g p code ≠ .ok cfg) ∧
      ((code ≠ 1 ∧ code ≠ 2 ∧ code ≠ 3) →
        Individual.initE pieces r c sh shuffled code
          = .error "Unknown fitness type") := by
  constructor
  · intro hbad
    have hrun : runParameterPhase g p code
        = .error "Should be a positive integer." := by
      rcases le_or_lt g 0 with hg | hg
      · simp [runParameterPhase, validatePositiveInteger, hg]
      · have hp2 : p ≤ 0 := by omega
        simp [runParameterPhase, validatePositiveInteger, hp2, not_le.mpr hg]
    refine ⟨hrun, fun cfg hcfg => ?_⟩
    rw [hrun] at hcfg
    exact Except.noConfusion hcfg
  · intro hcode
    have hof : FitnessType.ofValue code = none := by
      simp [FitnessType.ofValue, hcode.1, hcode.2.1, hcode.2.2]
    simp [Individual.initE, hof]

/-- Witness for C6: zero generations with the valid default fitness code 1,
and separately fitness code 7 with valid counts; each implication fires on
its own. -/
theorem config_validation_fails_fast_witness :
    (((0:Int) ≤ 0 ∨ (5:Int) ≤ 0) →
        runParameterPhase 0 5 1 = .error "Should be a positive integer." ∧
        ∀ cfg : GAConfig, runParameterPhase 0 5 1 ≠ .ok cfg) ∧
      (((1:Int) ≠ 1 ∧ (1:Int) ≠ 2 ∧ (1:Int) ≠ 3) →
        Individual.initE [pieceA] 1 1 false [pieceA] 1
          = .error "Unknown fitness type") ∧
      (((5:Int) ≤ 0 ∨ (7:Int) ≤ 0) →
        runParameterPhase 5 7 7 = .error "Should be a positive integer." ∧
        ∀ cfg : GAConfig, runParameterPhase 5 7 7 ≠ .ok cfg) ∧
      (((7:Int) ≠ 1 ∧ (7:Int) ≠ 2 ∧ (7:Int) ≠ 3) →
        Individual.initE [pieceA] 1 1 false [pieceA] 7
          = .error "Unknown fitness type") :=
  ⟨(config_validation_fails_fast 0 5 1 [pieceA] [pieceA] 1 1 false).1,
    (config_validation_fails_fast 0 5 1 [pieceA] [pieceA] 1 1 false).2,
    (config_validation_fails_fast 5 7 7 [pieceA] [pieceA] 1 1 false).1,
    (config_validation_fails_fast 5 7 7 [pieceA] [pieceA] 1 1 false).2⟩

/-- C7 counterexample: the constructor accepts a 3-piece list for a 2 by 2
grid — construction succeeds even though 3 is not equal to rows * columns. -/
theorem init_accepts_mismatched_count_cex :
    [pieceA, pieceB, pieceC].length ≠ 2 * 2 ∧
      Individual.initE [pieceA, pieceB, pieceC] 2 2 false
          [pieceA, pieceB, pieceC] 1
        = .ok ⟨[pieceA, pieceB, pieceC], 2, 2, .Similarity⟩ := by
  exact ⟨by decide, rfl⟩

/-- C7 amended: `Individual.__init__` performs no piece-count validation:
whenever the fitness-type code is valid, construction succeeds for every piece
sequence and grid shape, the piece list being stored unchecked against
`rows * columns`. -/
theorem init_no_piece_count_check (pieces shuffled : List Piece)
    (r c : Nat) (sh : Bool) (code : Int) (ft : FitnessType)
    (hcode : FitnessType.ofValue code = some ft) :
    Individual.initE pieces r c sh shuffled code
      = .ok (Individual.init pieces r c sh shuffled ft) ∧
      (Individual.init pieces r c sh shuffled ft).pieces.length
        = (if sh then shuffled else pieces).length := by
  constructor
  · simp [Individual.initE, hcode]
  · cases sh <;> rfl

/-- Witness for C7's amended statement: the mismatched 3-piece, 2 by 2 input. -/
theorem init_no_piece_count_check_witness :
    Individual.initE [pieceA, pieceB, pieceC] 2 2 false
        [pieceA, pieceB, pieceC] 1
      = .ok (Individual.init [pieceA, pieceB, pieceC] 2 2 false
          [pieceA, pieceB, pieceC] FitnessType.Similarity) ∧
      (Individual.init [pieceA, pieceB, pieceC] 2 2 false
          [pieceA, pieceB, pieceC] FitnessType.Similarity).pieces.length
        = (if false then [pieceA, pieceB, pieceC]
           else [pieceA, pieceB, pieceC]).length :=
  init_no_piece_count_check [pieceA, pieceB, pieceC]
    [pieceA, pieceB, pieceC] 2 2 false 1 FitnessType.Similarity rfl

/-- C10: the constructor never mutates the caller's list object: after
`__init__` runs (shuffle or not, for any permutation drawn), the store still
holds the caller's original list, element for element, and the Individual's
own list is a distinct, freshly allocated object. -/
theorem init_does_not_mutate_caller (store : Store) (callerRef : Nat)
    (sh : Bool) (shuf : List Piece → List Piece)
    (href : callerRef < store.length) :
    ((initStore store callerRef sh shuf).1).getD callerRef []
        = store.getD callerRef [] ∧
      (initStore store callerRef sh shuf).2 ≠ callerRef := by
  have hne : store.length ≠ callerRef := by omega
  have happ : (store ++ [store.getD callerRef []]).getD callerRef []
      = store.getD callerRef [] := by
    simp [List.getD, List.getElem?_append_left href]
  constructor
  · unfold initStore
    cases sh
    · simpa using happ
    · simp only [if_pos]
      rw [List.getD, List.get?_set_ne _ _ hne]
      simpa [List.getD] using happ
  · exact hne

/-- Witness for C10: a one-object store, shuffling turned on. -/
theorem init_does_not_mutate_caller_witness :
    ((initStore [[pieceA, pieceB]] 0 true List.reverse).1).getD 0 []
        = [[pieceA, pieceB]].getD 0 [] ∧
      (initStore [[pieceA, pieceB]] 0 true List.reverse).2 ≠ 0 :=
  init_does_not_mutate_caller [[pieceA, pieceB]] 0 true List.reverse
    (by decide)

end Gaps
